import Mathlib

/-!
# Verification of the svelte-interval core (packages/svelte, `index.svelte.ts`)

Shallow embedding of the reactive interval timer library: the `Interval`
class, its `LimitedInterval` subclass and the `sync` controller, translated
from the TypeScript source.  The host reactivity machinery is modelled
explicitly:

* `setInterval` handles are fresh positive numbers drawn from a per-instance
  counter `next_id`; `clearInterval` kills the scheduled timer
  (`timer_live := false`).  The sentinel id `0` is the initial value of the
  `interval_id` field and the value `stop()` writes back.
* The `$derived` handle (`#interval` in the source) is lazy: it is
  (re)computed only when read (`current` / `tickCount` getters,
  `#kickoff_subscriptions`), and only when its dependencies — the `#version`
  counter or the resolved duration — changed since the last computation.
  The fields `handle_computed`, `handle_version`, `handle_duration` record
  the dependency snapshot of the last computation.
* `setInterval(this.#run_func.bind(this), d)` captures the *value* of the
  mutable `#run_func` field at handle-creation time; the field can be
  reassigned later (by `LimitedInterval`'s constructor or by `sync`) without
  affecting an already scheduled timer.  `handle_func` records the captured
  function of the live handle.
* Tick-handling functions are defunctionalised by `RunFunc`: the base
  `Interval` handler (`plain`), the `LimitedInterval` override (`limited`),
  the no-op installed on sync followers (`noop`) and the leader broadcast
  closure installed by `sync().enable` (`broadcast`), which captures the
  leader and the saved original handlers.
* A heap of interval instances is a total map `World : Nat → Interval`;
  object references become indices.  Exceptions (`throw new Error`) are
  modelled by `Option`: `none` means the call throws, and since the source
  throws before mutating, the receiver is unchanged.
* Observer notification (`createSubscriber` / `#update`) carries no state
  observable through the claims and is not modelled.
-/

namespace SvelteInterval

/-- A duration specification: a plain number of milliseconds or a
zero-argument producer function (`number | (() => number)`). -/
inductive DurationSpec where
  | num (n : Int)
  | func (f : Unit → Int)

/-- `#duration` in the source: resolve the spec, invoking a producer. -/
def resolveDuration : DurationSpec → Int
  | .num n => n
  | .func f => f ()

/-- Defunctionalised tick-handling functions (`#run_func` values). -/
inductive RunFunc where
  | plain
  | limited
  | noop
  | broadcast (leader : Nat) (saved : List (Nat × RunFunc))

/-- One interval instance.  Base fields mirror `class Interval`; the last
three fields are the `LimitedInterval` subclass extension (on a plain
`Interval` they are inert: nothing reads them because `run_func` stays
`plain`).  `timer_live`, `handle_computed`, `handle_version`,
`handle_duration`, `handle_func` and `next_id` model the scheduled
`setInterval` timer and the `$derived` cache, as described in the header. -/
structure Interval where
  duration_input : DurationSpec
  is_active : Bool
  tick_count : Nat
  version : Nat
  interval_id : Nat
  timer_live : Bool
  handle_computed : Bool
  handle_version : Nat
  handle_duration : Int
  handle_func : RunFunc
  run_func : RunFunc
  next_id : Nat
  max_ticks : Int
  is_completed : Bool
  completion_baseline : Nat

namespace Interval

/-- The resolved duration of an instance (the `duration` getter). -/
def durationVal (s : Interval) : Int :=
  resolveDuration s.duration_input

/-- `#kickoff_subscriptions`: reading the `#interval` derived.  If the
dependency snapshot (version, resolved duration) is unchanged since the last
computation the cached handle survives; otherwise the old timer is cleared
and a fresh one is scheduled, capturing the current `#run_func`. -/
def kickoff (s : Interval) : Interval :=
  if s.handle_computed && s.handle_version == s.version
      && s.handle_duration == s.durationVal then
    s
  else
    { s with interval_id := s.next_id
             next_id := s.next_id + 1
             timer_live := true
             handle_computed := true
             handle_version := s.version
             handle_duration := s.durationVal
             handle_func := s.run_func }

/-- `pause()`: sets `#is_active := false`. -/
def pause (s : Interval) : Interval :=
  { s with is_active := false }

/-- `stop()`: `clearInterval`, deactivate, reset the id to the 0 sentinel. -/
def stop (s : Interval) : Interval :=
  { s with timer_live := false, is_active := false, interval_id := 0 }

/-- `[Symbol.dispose]`: `clearInterval` only; the id field is untouched. -/
def dispose (s : Interval) : Interval :=
  { s with timer_live := false }

/-- The `duration` setter: replace the spec and bump `#version`. -/
def setDuration (v : DurationSpec) (s : Interval) : Interval :=
  { s with duration_input := v, version := s.version + 1 }

/-- `[INTERNAL].force_restart`: bump `#version`. -/
def forceRestart (s : Interval) : Interval :=
  { s with version := s.version + 1 }

/-- The `isStopped` getter: `this.#interval_id === 0`. -/
def isStopped (s : Interval) : Bool :=
  s.interval_id == 0

/-- `new Interval(duration, { immediate })`: field initialisers, then a
synchronous kickoff when `immediate` is set. -/
def init (d : DurationSpec) (immediate : Bool) : Interval :=
  let base : Interval :=
    { duration_input := d
      is_active := true
      tick_count := 0
      version := 0
      interval_id := 0
      timer_live := false
      handle_computed := false
      handle_version := 0
      handle_duration := 0
      handle_func := .plain
      run_func := .plain
      next_id := 1
      max_ticks := 0
      is_completed := false
      completion_baseline := 0 }
  if immediate then base.kickoff else base

end Interval

/-- A heap of interval instances, indexed by `Nat` object references. -/
abbrev World := Nat → Interval

mutual

/-- Execute a tick-handling function with `this` bound to instance `i`.

* `plain` is `Interval`'s `#run_func`: if inactive do nothing, else
  increment `#tick_count` (and notify, which is not modelled).
* `limited` is `LimitedInterval`'s constructor override: no-op when
  completed, then the base behaviour, then the completion check that sets
  `#is_completed` and pauses when `ticksSinceBaseline >= #max_ticks`.
* `noop` is the follower replacement installed by `sync().enable`.
* `broadcast` is the leader replacement: gated on the *leader's* own
  active flag, then every member's saved original handler in member order. -/
def applyRunFunc : RunFunc → Nat → World → World
  | .plain, i, w =>
    let s := w i
    if s.is_active then
      Function.update w i { s with tick_count := s.tick_count + 1 }
    else w
  | .limited, i, w =>
    let s := w i
    if s.is_completed then w
    else if !s.is_active then w
    else
      let s1 : Interval := { s with tick_count := s.tick_count + 1 }
      if s1.max_ticks ≤ (s1.tick_count : Int) - (s1.completion_baseline : Int) then
        Function.update w i { s1 with is_completed := true, is_active := false }
      else
        Function.update w i s1
  | .noop, _, w => w
  | .broadcast leader saved, _, w =>
    if (w leader).is_active then applyRunFuncs saved w else w

/-- Run a list of (instance, handler) pairs in order (the broadcast loop
`for (const synced_interval of intervals) original_func.call(...)`). -/
def applyRunFuncs : List (Nat × RunFunc) → World → World
  | [], w => w
  | (i, f) :: rest, w => applyRunFuncs rest (applyRunFunc f i w)

end

/-- One firing of instance `i`'s underlying timer: only a scheduled timer
fires, and it invokes the function that was bound at handle creation. -/
def fireAt (i : Nat) (w : World) : World :=
  if (w i).timer_live then applyRunFunc (w i).handle_func i w else w

namespace LimitedInterval

/-- The `LimitedInterval` instance as built by a *successful* constructor
run: `super(duration, options)` first (including the immediate kickoff,
which captures the still-`plain` `#run_func` into the handle), then the
`#max_ticks` assignment and the `run_func` override. -/
def mkState (d : DurationSpec) (maxTicks : Int) (immediate : Bool) : Interval :=
  { Interval.init d immediate with max_ticks := maxTicks, run_func := .limited }

/-- `new LimitedInterval(duration, maxTicks, options)`: throws
(`none`) when `maxTicks <= 0`, after `super(...)` has already run. -/
def init (d : DurationSpec) (maxTicks : Int) (immediate : Bool) : Option Interval :=
  if maxTicks ≤ 0 then none else some (mkState d maxTicks immediate)

/-- The `maxTicks` setter: validate, then store the limit and clear the
completed flag.  `none` models the thrown error (thrown before any
mutation). -/
def setMaxTicks (v : Int) (s : Interval) : Option Interval :=
  if v ≤ 0 then none
  else some { s with max_ticks := v, is_completed := false }

/-- `reset()`: clear `#is_completed`, snapshot `#completion_baseline` from
the `tickCount` getter (which performs the lazy-start kickoff), and resume
(non-immediately) when inactive. -/
def reset (s : Interval) : Interval :=
  let s1 : Interval := { s with is_completed := false }
  let s2 := s1.kickoff
  let s3 : Interval := { s2 with completion_baseline := s2.tick_count }
  if s3.is_active then s3 else { s3 with is_active := true }

/-- The `remainingTicks` getter: the returned value together with the state
after the read (the `tickCount` read inside performs the kickoff). -/
def remainingTicks (s : Interval) : Int × Interval :=
  let s1 := s.kickoff
  (max 0 (s1.max_ticks - ((s1.tick_count : Int) - (s1.completion_baseline : Int))), s1)

end LimitedInterval

/-- The public operations on a standalone (Limited)Interval instance, the
heap-level events included (`fire` is an underlying-timer firing). -/
inductive SOp where
  | fire
  | pause
  | resume (immediate : Bool)
  | reset
  | stop
  | dispose
  | setMax (v : Int)
  | setDur (v : DurationSpec)
  | readCurrent
  | readTicks
  | readRemaining

/-- `true` iff the operation is a `resume` call. -/
def SOp.isResume : SOp → Bool
  | .resume _ => true
  | _ => false

/-- Apply a single-instance update at index 0 of a world. -/
def upd0 (f : Interval → Interval) (w : World) : World :=
  Function.update w 0 (f (w 0))

/-- Semantics of the public operations, acting on the instance at index 0.
`resume` is `this.#is_active = true` followed, when immediate, by a
`#version` bump and a synchronous invocation of the *current* `#run_func`.
A `setMax` with a non-positive value throws before mutating, so the world
is returned unchanged. -/
def stepOp (w : World) : SOp → World
  | .fire => fireAt 0 w
  | .pause => upd0 Interval.pause w
  | .resume immediate =>
    let w1 := upd0 (fun s => { s with is_active := true }) w
    if immediate then
      let w2 := upd0 Interval.forceRestart w1
      applyRunFunc (w2 0).run_func 0 w2
    else w1
  | .reset => upd0 LimitedInterval.reset w
  | .stop => upd0 Interval.stop w
  | .dispose => upd0 Interval.dispose w
  | .setMax v =>
    if v ≤ 0 then w
    else upd0 (fun s => { s with max_ticks := v, is_completed := false }) w
  | .setDur v => upd0 (Interval.setDuration v) w
  | .readCurrent => upd0 Interval.kickoff w
  | .readTicks => upd0 Interval.kickoff w
  | .readRemaining => upd0 Interval.kickoff w

/-- Run a sequence of public operations. -/
def runTrace (w : World) (t : List SOp) : World :=
  t.foldl stepOp w

/-- A world holding a single instance (every reference denotes it; the
operations above only ever touch index 0). -/
def single (s : Interval) : World := fun _ => s

/-- The state of a `sync(...)` controller closure: the member list (in call
order), the selected leader, the captured original run functions and the
`sync_active` flag. -/
structure SyncController where
  members : List Nat
  leader : Nat
  saved : List (Nat × RunFunc)
  sync_active : Bool

/-- The body of the leader-selection loop of `sync`:
`if (interval.duration < leader.duration) leader = interval`. -/
def leaderStep (w : World) (l i : Nat) : Nat :=
  if (w i).durationVal < (w l).durationVal then i else l

/-- The leader-selection loop of `sync`:
`let leader = intervals[0]; for (interval of intervals) if (interval.duration < leader.duration) leader = interval;`. -/
def selectLeader (w : World) (ms : List Nat) : Nat :=
  ms.foldl (leaderStep w) (ms.headD 0)

/-- `sync(...intervals)`: throws (`none`) on an empty member list, else
selects the leader and captures every member's current `#run_func` into the
`original_run_funcs` map before any mutation. -/
def sync (ms : List Nat) (w : World) : Option SyncController :=
  if ms.isEmpty then none
  else some
    { members := ms
      leader := selectLeader w ms
      saved := ms.map (fun i => (i, (w i).run_func))
      sync_active := false }

/-- The body of the `enable()` override loop: the leader gets the broadcast
closure, every other member gets the no-op. -/
def replaceStep (c : SyncController) (acc : World) (i : Nat) : World :=
  Function.update acc i
    { acc i with
        run_func :=
          if i = c.leader then .broadcast c.leader c.saved else .noop }

/-- The world mutation performed by `enable()` once past the re-entry
guard: replace every member's run function (leader gets the broadcast,
followers the no-op), read `leader.current` (starting the leader if not
already started), then force-restart the leader. -/
def enableWorld (c : SyncController) (w : World) : World :=
  let w1 := c.members.foldl (replaceStep c) w
  let w2 := Function.update w1 c.leader (w1 c.leader).kickoff
  Function.update w2 c.leader (w2 c.leader).forceRestart

/-- `enable()`: no-op when already active, else flip the flag and perform
the `enableWorld` mutation. -/
def SyncController.enable (c : SyncController) (w : World) :
    SyncController × World :=
  if c.sync_active then (c, w)
  else ({ c with sync_active := true }, enableWorld c w)

/-- The body of the `disable()` restore loop: put back the saved original
run function and force-restart the member. -/
def restoreStep (acc : World) (p : Nat × RunFunc) : World :=
  Function.update acc p.1
    (Interval.forceRestart { acc p.1 with run_func := p.2 })

/-- The world mutation performed by `disable()` once past the guard:
restore every member's saved original run function, force-restarting each
member. -/
def disableWorld (c : SyncController) (w : World) : World :=
  c.saved.foldl restoreStep w

/-- `disable()`: no-op when not active, else flip the flag and perform the
`disableWorld` restore. -/
def SyncController.disable (c : SyncController) (w : World) :
    SyncController × World :=
  if !c.sync_active then (c, w)
  else ({ c with sync_active := false }, disableWorld c w)

/-! ## Concrete instances used in counterexamples and witnesses -/

/-- A `LimitedInterval(100, 2)` instance. -/
def c8s : Interval := LimitedInterval.mkState (.num 100) 2 false

/-- The expected result of `c8s.maxTicks = 5`. -/
def c8r : Interval := { c8s with max_ticks := 5, is_completed := false }

/-- Two instances: index 0 is `new Interval(300)` and every other index is
`new Interval(100)`. -/
def c4w0 : World := fun n =>
  if n = 0 then Interval.init (.num 300) false else Interval.init (.num 100) false

/-- `c4w0` after a `current` read on instance 0 (its timer is now live). -/
def c4w1 : World := Function.update c4w0 0 (c4w0 0).kickoff

/-- The controller `sync` builds for members `[0, 1]` of `c4w1`:
instance 1 (duration 100) is the leader. -/
def c4c : SyncController :=
  { members := [0, 1], leader := 1,
    saved := [(0, .plain), (1, .plain)], sync_active := false }

/-- Three instances with durations 300, 100 and 200 (index ≥ 2). -/
def c5w : World := fun n =>
  if n = 0 then Interval.init (.num 300) false
  else if n = 1 then Interval.init (.num 100) false
  else Interval.init (.num 200) false

/-- The controller `sync` builds for members `[0, 1, 2]` of `c5w`:
instance 1 (duration 100) is the leader. -/
def c5c : SyncController :=
  { members := [0, 1, 2], leader := 1,
    saved := [(0, .plain), (1, .plain), (2, .plain)], sync_active := false }

/-! ## Basic lemmas about the single-instance operations -/

section BasicLemmas

@[simp] theorem kickoff_tick_count (s : Interval) :
    s.kickoff.tick_count = s.tick_count := by
  unfold Interval.kickoff; split <;> rfl

@[simp] theorem kickoff_is_active (s : Interval) :
    s.kickoff.is_active = s.is_active := by
  unfold Interval.kickoff; split <;> rfl

@[simp] theorem kickoff_is_completed (s : Interval) :
    s.kickoff.is_completed = s.is_completed := by
  unfold Interval.kickoff; split <;> rfl

@[simp] theorem kickoff_completion_baseline (s : Interval) :
    s.kickoff.completion_baseline = s.completion_baseline := by
  unfold Interval.kickoff; split <;> rfl

@[simp] theorem kickoff_max_ticks (s : Interval) :
    s.kickoff.max_ticks = s.max_ticks := by
  unfold Interval.kickoff; split <;> rfl

@[simp] theorem kickoff_run_func (s : Interval) :
    s.kickoff.run_func = s.run_func := by
  unfold Interval.kickoff; split <;> rfl

theorem kickoff_handle_func (s : Interval) :
    s.kickoff.handle_func = s.handle_func ∨ s.kickoff.handle_func = s.run_func := by
  unfold Interval.kickoff; split
  · exact Or.inl rfl
  · exact Or.inr rfl

@[simp] theorem reset_is_completed (s : Interval) :
    (LimitedInterval.reset s).is_completed = false := by
  unfold LimitedInterval.reset; dsimp only; split <;> simp

@[simp] theorem reset_tick_count (s : Interval) :
    (LimitedInterval.reset s).tick_count = s.tick_count := by
  unfold LimitedInterval.reset; dsimp only; split <;> simp

@[simp] theorem reset_completion_baseline (s : Interval) :
    (LimitedInterval.reset s).completion_baseline = s.tick_count := by
  unfold LimitedInterval.reset; dsimp only; split <;> simp

@[simp] theorem reset_is_active (s : Interval) :
    (LimitedInterval.reset s).is_active = true := by
  unfold LimitedInterval.reset; dsimp only; split
  · rename_i h; simpa using h
  · simp

@[simp] theorem reset_run_func (s : Interval) :
    (LimitedInterval.reset s).run_func = s.run_func := by
  unfold LimitedInterval.reset; dsimp only; split <;> simp

@[simp] theorem reset_version (s : Interval) :
    (LimitedInterval.reset s).version = s.version := by
  unfold LimitedInterval.reset
  have h : (({ s with is_completed := false } : Interval)).kickoff.version
      = s.version := by
    unfold Interval.kickoff; split <;> rfl
  dsimp only; split <;> simpa using h

theorem reset_handle_func (s : Interval) :
    (LimitedInterval.reset s).handle_func = s.handle_func
    ∨ (LimitedInterval.reset s).handle_func = s.run_func := by
  unfold LimitedInterval.reset
  rcases kickoff_handle_func ({ s with is_completed := false } : Interval) with h | h
  · left; dsimp only; split <;> simpa using h
  · right; dsimp only; split <;> simpa using h

@[simp] theorem upd0_zero (f : Interval → Interval) (w : World) :
    (upd0 f w) 0 = f (w 0) := by
  simp [upd0]

@[simp] theorem single_apply (s : Interval) (n : Nat) : single s n = s := rfl

theorem applyRunFunc_plain_eq (i : Nat) (w : World) :
    applyRunFunc .plain i w =
      if (w i).is_active = true then
        Function.update w i { w i with tick_count := (w i).tick_count + 1 }
      else w := by
  rw [applyRunFunc]

theorem applyRunFunc_limited_eq (i : Nat) (w : World) :
    applyRunFunc .limited i w =
      if (w i).is_completed = true then w
      else if (w i).is_active = false then w
      else if (w i).max_ticks ≤ ((w i).tick_count + 1 : Int) - ((w i).completion_baseline : Int) then
        Function.update w i
          { w i with tick_count := (w i).tick_count + 1,
                     is_completed := true, is_active := false }
      else
        Function.update w i { w i with tick_count := (w i).tick_count + 1 } := by
  rw [applyRunFunc]
  rcases hc : (w i).is_completed <;> rcases ha : (w i).is_active <;>
    simp [hc, ha]

@[simp] theorem applyRunFunc_noop_eq (i : Nat) (w : World) :
    applyRunFunc .noop i w = w := by
  rw [applyRunFunc]

theorem applyRunFunc_broadcast_eq (leader : Nat) (saved : List (Nat × RunFunc))
    (i : Nat) (w : World) :
    applyRunFunc (.broadcast leader saved) i w =
      if (w leader).is_active = true then applyRunFuncs saved w else w := by
  rw [applyRunFunc]

end BasicLemmas

/-! ## Invariants of a standalone (Limited)Interval instance -/

/-- A standalone instance only ever holds the local tick handlers (`plain`
or `limited`): no public operation installs a sync closure. -/
def LocalFuncs (s : Interval) : Prop :=
  (s.run_func = .plain ∨ s.run_func = .limited)
  ∧ (s.handle_func = .plain ∨ s.handle_func = .limited)

/-- Once completed, at least `max_ticks` ticks have elapsed since the
completion baseline. -/
def CompletedTicks (s : Interval) : Prop :=
  s.is_completed = true →
    s.max_ticks ≤ (s.tick_count : Int) - (s.completion_baseline : Int)

/-- Once completed, the instance is paused. -/
def CompletedInactive (s : Interval) : Prop :=
  s.is_completed = true → s.is_active = false

theorem apply_local_preserves (f : RunFunc)
    (hf : f = RunFunc.plain ∨ f = RunFunc.limited) (w : World) :
    ((applyRunFunc f 0 w) 0).run_func = (w 0).run_func
    ∧ ((applyRunFunc f 0 w) 0).handle_func = (w 0).handle_func
    ∧ (CompletedTicks (w 0) → CompletedTicks ((applyRunFunc f 0 w) 0))
    ∧ (CompletedInactive (w 0) → CompletedInactive ((applyRunFunc f 0 w) 0)) := by
  rcases hf with rfl | rfl
  · rw [applyRunFunc_plain_eq]
    split
    · refine ⟨by simp, by simp, ?_, ?_⟩
      · intro h hc
        simp only [Function.update_same] at hc ⊢
        have := h hc
        omega
      · intro h hc
        simp only [Function.update_same] at hc ⊢
        exact h hc
    · exact ⟨rfl, rfl, fun h => h, fun h => h⟩
  · rw [applyRunFunc_limited_eq]
    split
    · exact ⟨rfl, rfl, fun h => h, fun h => h⟩
    · rename_i hnc
      split
      · exact ⟨rfl, rfl, fun h => h, fun h => h⟩
      · split
        · rename_i htick
          refine ⟨by simp, by simp, ?_, ?_⟩
          · intro _ _
            simp only [Function.update_same]
            omega
          · intro _ _
            simp [Function.update_same]
        · refine ⟨by simp, by simp, ?_, ?_⟩
          · intro _ hc
            simp only [Function.update_same] at hc
            simp only [Bool.not_eq_true] at hnc
            exact absurd hc (by simp [hnc])
          · intro _ hc
            simp only [Function.update_same] at hc
            simp only [Bool.not_eq_true] at hnc
            exact absurd hc (by simp [hnc])

theorem kickoff_upd_preserves (w : World)
    (hrf : (w 0).run_func = RunFunc.plain ∨ (w 0).run_func = RunFunc.limited)
    (hhf : (w 0).handle_func = RunFunc.plain ∨ (w 0).handle_func = RunFunc.limited) :
    LocalFuncs ((upd0 Interval.kickoff w) 0)
    ∧ (CompletedTicks (w 0) → CompletedTicks ((upd0 Interval.kickoff w) 0))
    ∧ (CompletedInactive (w 0) → CompletedInactive ((upd0 Interval.kickoff w) 0)) := by
  refine ⟨⟨?_, ?_⟩, ?_, ?_⟩
  · simp only [upd0_zero, kickoff_run_func]; exact hrf
  · simp only [upd0_zero]
    rcases kickoff_handle_func (w 0) with h | h <;> rw [h]
    · exact hhf
    · exact hrf
  · intro h hc
    simp only [upd0_zero, kickoff_is_completed] at hc
    simp only [upd0_zero, kickoff_max_ticks, kickoff_tick_count,
      kickoff_completion_baseline]
    exact h hc
  · intro h hc
    simp only [upd0_zero, kickoff_is_completed] at hc
    simp only [upd0_zero, kickoff_is_active]
    exact h hc

theorem stepOp_preserves (w : World) (op : SOp) (hL : LocalFuncs (w 0)) :
    LocalFuncs ((stepOp w op) 0)
    ∧ (CompletedTicks (w 0) → CompletedTicks ((stepOp w op) 0))
    ∧ (CompletedInactive (w 0) → op.isResume = false →
        CompletedInactive ((stepOp w op) 0)) := by
  obtain ⟨hrf, hhf⟩ := hL
  cases op with
  | fire =>
    simp only [stepOp, fireAt]
    split
    · obtain ⟨h1, h2, h3, h4⟩ := apply_local_preserves (w 0).handle_func hhf w
      refine ⟨⟨?_, ?_⟩, fun h => h3 h, fun h _ => h4 h⟩
      · rw [h1]; exact hrf
      · rw [h2]; exact hhf
    · exact ⟨⟨hrf, hhf⟩, fun h => h, fun h _ => h⟩
  | pause =>
    refine ⟨⟨by simpa using hrf, by simpa using hhf⟩, ?_, ?_⟩
    · intro h hc
      simp only [stepOp, upd0_zero, Interval.pause] at hc ⊢
      exact h hc
    · intro _ _ _
      simp [stepOp, Interval.pause]
  | resume imm =>
    simp only [stepOp]
    split
    · set w2 : World :=
        upd0 Interval.forceRestart
          (upd0 (fun s => { s with is_active := true }) w) with hw2
      have h0 : (w2 0).run_func = (w 0).run_func := by simp [hw2, Interval.forceRestart]
      have h0h : (w2 0).handle_func = (w 0).handle_func := by
        simp [hw2, Interval.forceRestart]
      have hCT : CompletedTicks (w 0) → CompletedTicks (w2 0) := by
        intro h hc
        simp only [hw2, upd0_zero, Interval.forceRestart] at hc ⊢
        exact h hc
      obtain ⟨h1, h2, h3, _⟩ :=
        apply_local_preserves (w2 0).run_func (h0 ▸ hrf) w2
      refine ⟨⟨?_, ?_⟩, ?_, ?_⟩
      · rw [h1, h0]; exact hrf
      · rw [h2, h0h]; exact hhf
      · intro h; exact h3 (hCT h)
      · intro _ hres; simp [SOp.isResume] at hres
    · refine ⟨⟨by simpa using hrf, by simpa using hhf⟩, ?_, ?_⟩
      · intro h hc
        simp only [upd0_zero] at hc ⊢
        exact h hc
      · intro _ hres; simp [SOp.isResume] at hres
  | reset =>
    refine ⟨⟨?_, ?_⟩, ?_, ?_⟩
    · simp only [stepOp, upd0_zero, reset_run_func]; exact hrf
    · simp only [stepOp, upd0_zero]
      rcases reset_handle_func (w 0) with h | h <;> rw [h]
      · exact hhf
      · exact hrf
    · intro _ hc
      simp only [stepOp, upd0_zero, reset_is_completed] at hc
      exact Bool.noConfusion hc
    · intro _ _ hc
      simp only [stepOp, upd0_zero, reset_is_completed] at hc
      exact Bool.noConfusion hc
  | stop =>
    refine ⟨⟨by simpa [Interval.stop] using hrf, by simpa [Interval.stop] using hhf⟩, ?_, ?_⟩
    · intro h hc
      simp only [stepOp, upd0_zero, Interval.stop] at hc ⊢
      exact h hc
    · intro _ _ _
      simp [stepOp, Interval.stop]
  | dispose =>
    refine ⟨⟨by simpa [Interval.dispose] using hrf, by simpa [Interval.dispose] using hhf⟩, ?_, ?_⟩
    · intro h hc
      simp only [stepOp, upd0_zero, Interval.dispose] at hc ⊢
      exact h hc
    · intro h _ hc
      simp only [stepOp, upd0_zero, Interval.dispose] at hc ⊢
      exact h hc
  | setMax v =>
    simp only [stepOp]
    split
    · exact ⟨⟨hrf, hhf⟩, fun h => h, fun h _ => h⟩
    · refine ⟨⟨by simpa using hrf, by simpa using hhf⟩, ?_, ?_⟩
      · intro _ hc; simp only [upd0_zero] at hc; cases hc
      · intro _ _ hc; simp only [upd0_zero] at hc; cases hc
  | setDur v =>
    refine ⟨⟨by simpa [Interval.setDuration] using hrf,
             by simpa [Interval.setDuration] using hhf⟩, ?_, ?_⟩
    · intro h hc
      simp only [stepOp, upd0_zero, Interval.setDuration] at hc ⊢
      exact h hc
    · intro h _ hc
      simp only [stepOp, upd0_zero, Interval.setDuration] at hc ⊢
      exact h hc
  | readCurrent =>
    obtain ⟨a, b, cpres⟩ := kickoff_upd_preserves w hrf hhf
    exact ⟨a, b, fun h _ => cpres h⟩
  | readTicks =>
    obtain ⟨a, b, cpres⟩ := kickoff_upd_preserves w hrf hhf
    exact ⟨a, b, fun h _ => cpres h⟩
  | readRemaining =>
    obtain ⟨a, b, cpres⟩ := kickoff_upd_preserves w hrf hhf
    exact ⟨a, b, fun h _ => cpres h⟩

theorem runTrace_preserves (t : List SOp) : ∀ (w : World), LocalFuncs (w 0) →
    LocalFuncs ((runTrace w t) 0)
    ∧ (CompletedTicks (w 0) → CompletedTicks ((runTrace w t) 0))
    ∧ (CompletedInactive (w 0) → t.all (fun op => !op.isResume) = true →
        CompletedInactive ((runTrace w t) 0)) := by
  induction t with
  | nil => exact fun w hL => ⟨hL, fun h => h, fun h _ => h⟩
  | cons op rest ih =>
    intro w hL
    obtain ⟨h1, h2, h3⟩ := stepOp_preserves w op hL
    obtain ⟨g1, g2, g3⟩ := ih (stepOp w op) h1
    refine ⟨g1, fun h => g2 (h2 h), ?_⟩
    intro h hall
    simp only [List.all_cons, Bool.and_eq_true] at hall
    exact g3 (h3 h (by simpa using hall.1)) hall.2

theorem mkState_is_completed (d : DurationSpec) (m : Int) (imm : Bool) :
    (LimitedInterval.mkState d m imm).is_completed = false := by
  cases imm <;> rfl

theorem mkState_localFuncs (d : DurationSpec) (m : Int) (imm : Bool) :
    LocalFuncs (LimitedInterval.mkState d m imm) := by
  cases imm <;> exact ⟨Or.inr rfl, Or.inl rfl⟩

theorem kickoff_cached (s : Interval) (h1 : s.handle_computed = true)
    (h2 : s.handle_version = s.version) (h3 : s.handle_duration = s.durationVal) :
    s.kickoff = s := by
  unfold Interval.kickoff
  rw [h1, h2, h3]
  simp

theorem kickoff_invariants (s : Interval) :
    s.kickoff.handle_computed = true
    ∧ s.kickoff.handle_version = s.kickoff.version
    ∧ s.kickoff.handle_duration = s.kickoff.durationVal := by
  unfold Interval.kickoff
  split
  · rename_i h
    simp only [Bool.and_eq_true, beq_iff_eq] at h
    exact ⟨h.1.1, h.1.2, h.2⟩
  · exact ⟨rfl, rfl, rfl⟩

theorem kickoff_idem (s : Interval) : s.kickoff.kickoff = s.kickoff := by
  obtain ⟨h1, h2, h3⟩ := kickoff_invariants s
  exact kickoff_cached s.kickoff h1 h2 h3

/-! ## Claim theorems: the standalone Interval and LimitedInterval -/

/-- C1, counterexample: a freshly constructed `Interval` on which `stop()`
was never called (and whose timer was never started) reports
`isStopped == true`, not `false` as the claim states: the getter only
compares `#interval_id` with `0`, and `0` is also the initial value. -/
theorem interval_fresh_isStopped_true :
    (Interval.init (.num 1000) false).isStopped = true := rfl

/-- C1 (amended): `isStopped` returns `true` iff the stored handle id is
the `0` sentinel, which does not record whether `stop()` was ever called:
it is `true` on a freshly constructed, never-started instance, `false` as
soon as a handle exists (immediate construction, or any `current` read),
and `true` again after every `stop()`. -/
theorem interval_isStopped_sentinel :
    (∀ d, (Interval.init d false).isStopped = true)
    ∧ (∀ d, (Interval.init d true).isStopped = false)
    ∧ (∀ s : Interval, (Interval.stop s).isStopped = true)
    ∧ (∀ d imm,
        ((runTrace (single (Interval.init d imm)) [SOp.readCurrent]) 0).isStopped
          = false) := by
  refine ⟨fun d => rfl, fun d => rfl, fun s => rfl, ?_⟩
  intro d imm
  cases imm
  · rfl
  · show ((Interval.init d true).kickoff).isStopped = false
    have h : Interval.init d true
        = (Interval.init d false).kickoff := rfl
    rw [h, kickoff_idem]
    rfl

/-- C2, counterexample: `resume()` on a completed `LimitedInterval` leaves
`isCompleted == true` while setting `isActive == true`, violating the
claimed invariant (the op sequence is: start, one tick reaching the limit,
then `resume()`). -/
theorem limited_completed_and_active :
    ((runTrace (single (LimitedInterval.mkState (.num 100) 1 false))
        [SOp.readCurrent, SOp.fire, SOp.resume false]) 0).is_completed = true
    ∧ ((runTrace (single (LimitedInterval.mkState (.num 100) 1 false))
        [SOp.readCurrent, SOp.fire, SOp.resume false]) 0).is_active = true :=
  ⟨by decide, by decide⟩

/-- C2 (amended): the invariant `isCompleted → ¬isActive` holds along every
sequence of public operations that contains no `resume` call; `resume` is
the one operation that re-activates without clearing the completed flag. -/
theorem limited_completed_implies_inactive (d : DurationSpec) (m : Int)
    (imm : Bool) (t : List SOp)
    (h : t.all (fun op => !op.isResume) = true) :
    ((runTrace (single (LimitedInterval.mkState d m imm)) t) 0).is_completed = true →
    ((runTrace (single (LimitedInterval.mkState d m imm)) t) 0).is_active = false := by
  have h0 : LocalFuncs ((single (LimitedInterval.mkState d m imm)) 0) :=
    mkState_localFuncs d m imm
  have hCI : CompletedInactive ((single (LimitedInterval.mkState d m imm)) 0) := by
    intro hc
    rw [single_apply, mkState_is_completed] at hc
    exact Bool.noConfusion hc
  exact (runTrace_preserves t _ h0).2.2 hCI h

/-- C2 witness: the amended theorem applied to the resume-free trace
`[current read, fire]` on a `LimitedInterval(100, 1)`, which completes. -/
theorem limited_completed_implies_inactive_witness :
    ([SOp.readCurrent, SOp.fire].all (fun op => !op.isResume) = true)
    ∧ ((runTrace (single (LimitedInterval.mkState (.num 100) 1 false))
        [SOp.readCurrent, SOp.fire]) 0).is_active = false :=
  ⟨by decide,
   limited_completed_implies_inactive (.num 100) 1 false
     [SOp.readCurrent, SOp.fire] (by decide) (by decide)⟩

/-- C3, evaluation at the failing input: after `current; stop()` no tick was
counted, but `resume(true)` then counts a tick, and
`stop(); duration = 50; current` recreates a live timer handle (and makes
`isStopped` read `false` again) — a stopped timer can fire again, contrary
to the claim and to `stop()`'s own doc comment ("Cannot be resumed"). -/
theorem interval_stop_then_restart :
    ((runTrace (single (Interval.init (.num 100) false))
        [SOp.readCurrent, SOp.stop]) 0).tick_count = 0
    ∧ ((runTrace (single (Interval.init (.num 100) false))
        [SOp.readCurrent, SOp.stop, SOp.resume true]) 0).tick_count = 1
    ∧ ((runTrace (single (Interval.init (.num 100) false))
        [SOp.readCurrent, SOp.stop, SOp.setDur (.num 50), SOp.readCurrent]) 0).timer_live
        = true
    ∧ ((runTrace (single (Interval.init (.num 100) false))
        [SOp.readCurrent, SOp.stop, SOp.setDur (.num 50), SOp.readCurrent]) 0).isStopped
        = false :=
  ⟨by decide, by decide, by decide, by decide⟩

/-- C6: `reset()` clears the completed flag, snapshots the completion
baseline from the current (unchanged) cumulative tick count, always leaves
the instance active (resuming non-immediately, without a version bump, when
it was paused) — and the evaluation at the failing input: a
`LimitedInterval(100, 1, { immediate: true })` created its timer handle in
`super(...)` *before* the limit-checking override was installed, so after
`reset()` one further counted tick does `not` trigger completion. -/
theorem limited_reset_effects_and_immediate_slip :
    (∀ s : Interval,
      (LimitedInterval.reset s).is_completed = false
      ∧ (LimitedInterval.reset s).completion_baseline
          = (LimitedInterval.reset s).tick_count
      ∧ (LimitedInterval.reset s).tick_count = s.tick_count
      ∧ (LimitedInterval.reset s).is_active = true
      ∧ (LimitedInterval.reset s).version = s.version)
    ∧ ((runTrace (single (LimitedInterval.mkState (.num 100) 1 true))
        [SOp.reset, SOp.fire]) 0).tick_count = 1
    ∧ ((runTrace (single (LimitedInterval.mkState (.num 100) 1 true))
        [SOp.reset, SOp.fire]) 0).is_completed = false :=
  ⟨fun s => ⟨by simp, by simp, by simp, by simp, by simp⟩, by decide, by decide⟩

/-- C7: `remainingTicks` returns
`max(0, maxTicks − (tickCount − completionBaseline))` in every state, the
value is never negative, and in every reachable state of a standalone
`LimitedInterval` in which `isCompleted` holds (in particular at the moment
completion is reached) the value is exactly `0`. -/
theorem limited_remainingTicks_spec :
    (∀ s : Interval, (LimitedInterval.remainingTicks s).1
        = max 0 (s.max_ticks - ((s.tick_count : Int) - (s.completion_baseline : Int))))
    ∧ (∀ s : Interval, 0 ≤ (LimitedInterval.remainingTicks s).1)
    ∧ (∀ (d : DurationSpec) (m : Int) (imm : Bool) (t : List SOp),
        ((runTrace (single (LimitedInterval.mkState d m imm)) t) 0).is_completed = true →
        (LimitedInterval.remainingTicks
          ((runTrace (single (LimitedInterval.mkState d m imm)) t) 0)).1 = 0) := by
  have hval : ∀ s : Interval, (LimitedInterval.remainingTicks s).1
      = max 0 (s.max_ticks - ((s.tick_count : Int) - (s.completion_baseline : Int))) := by
    intro s
    simp [LimitedInterval.remainingTicks]
  refine ⟨hval, fun s => by rw [hval]; exact le_max_left 0 _, ?_⟩
  intro d m imm t hc
  have h0 : LocalFuncs ((single (LimitedInterval.mkState d m imm)) 0) :=
    mkState_localFuncs d m imm
  have hCT : CompletedTicks ((single (LimitedInterval.mkState d m imm)) 0) := by
    intro hc0
    rw [single_apply, mkState_is_completed] at hc0
    exact Bool.noConfusion hc0
  have hticks := (runTrace_preserves t _ h0).2.1 hCT hc
  rw [hval]
  omega

/-- C7 witness: the trace `[current read, fire]` on `LimitedInterval(100, 1)`
completes, and the theorem yields `remainingTicks = 0` there. -/
theorem limited_remainingTicks_spec_witness :
    (LimitedInterval.remainingTicks
      ((runTrace (single (LimitedInterval.mkState (.num 100) 1 false))
        [SOp.readCurrent, SOp.fire]) 0)).1 = 0 :=
  limited_remainingTicks_spec.2.2 (.num 100) 1 false
    [SOp.readCurrent, SOp.fire] (by decide)

/-- C8: constructing a `LimitedInterval` with `maxTicks ≤ 0` throws, the
`maxTicks` setter throws on values `≤ 0`, and a successful write stores the
new limit, clears the completed flag and leaves the completion baseline
(and tick count, active flag, version) unchanged. -/
theorem limited_maxTicks_validation (d : DurationSpec) (m : Int) (imm : Bool)
    (v : Int) (s r : Interval) :
    (m ≤ 0 → LimitedInterval.init d m imm = none)
    ∧ (v ≤ 0 → LimitedInterval.setMaxTicks v s = none)
    ∧ (LimitedInterval.setMaxTicks v s = some r →
        0 < v ∧ r.max_ticks = v ∧ r.is_completed = false
        ∧ r.completion_baseline = s.completion_baseline
        ∧ r.tick_count = s.tick_count ∧ r.is_active = s.is_active
        ∧ r.version = s.version) := by
  refine ⟨?_, ?_, ?_⟩
  · intro h; simp [LimitedInterval.init, h]
  · intro h; simp [LimitedInterval.setMaxTicks, h]
  · intro h
    unfold LimitedInterval.setMaxTicks at h
    split at h
    · exact Option.noConfusion h
    · rename_i hv
      injection h with h
      subst h
      push_neg at hv
      exact ⟨hv, rfl, rfl, rfl, rfl, rfl, rfl⟩

/-- C8 witness: the validation theorem applied at `maxTicks = 0` (throws,
twice) and at a successful write `maxTicks = 5` on a `LimitedInterval`
with limit 2. -/
theorem limited_maxTicks_validation_witness :
    (LimitedInterval.init (.num 100) 0 false = none)
    ∧ (LimitedInterval.setMaxTicks 0 c8s = none)
    ∧ (0 < (5 : Int) ∧ c8r.max_ticks = 5 ∧ c8r.is_completed = false
        ∧ c8r.completion_baseline = c8s.completion_baseline
        ∧ c8r.tick_count = c8s.tick_count ∧ c8r.is_active = c8s.is_active
        ∧ c8r.version = c8s.version) :=
  ⟨(limited_maxTicks_validation (.num 100) 0 false 0 c8s c8s).1 (by decide),
   (limited_maxTicks_validation (.num 100) 0 false 0 c8s c8s).2.1 (by decide),
   (limited_maxTicks_validation (.num 100) 0 false 5 c8s c8r).2.2 rfl⟩

/-- C10: a `maxTicks` write with a non-positive value throws before any
mutation: the whole world is unchanged (hence so are `maxTicks`,
`isCompleted`, `completionBaseline`, `tickCount` and `isActive`). -/
theorem limited_maxTicks_throw_preserves_state (w : World) (v : Int)
    (h : v ≤ 0) :
    stepOp w (.setMax v) = w
    ∧ LimitedInterval.setMaxTicks v (w 0) = none := by
  constructor
  · simp [stepOp, h]
  · simp [LimitedInterval.setMaxTicks, h]

/-- C10 witness: the theorem applied to a concrete world and `v = -1`. -/
theorem limited_maxTicks_throw_preserves_state_witness :
    stepOp (single c8s) (.setMax (-1)) = single c8s
    ∧ LimitedInterval.setMaxTicks (-1) ((single c8s) 0) = none :=
  limited_maxTicks_throw_preserves_state (single c8s) (-1) (by decide)

/-! ## Lemmas about the synchronizer -/

theorem getD_mem_of_lt : ∀ (l : List Nat) (j : Nat), j < l.length →
    l.getD j 0 ∈ l := by
  intro l
  induction l with
  | nil => intro j hj; simp at hj
  | cons b rest ih =>
    intro j hj
    cases j with
    | zero => simp
    | succ j2 =>
      simp only [List.getD_cons_succ]
      exact List.mem_cons_of_mem b (ih j2 (by simpa using hj))

theorem foldl_leaderStep_spec (w : World) :
    ∀ (l : List Nat) (a : Nat),
    (l.foldl (leaderStep w) a = a
      ∧ ∀ i ∈ l, (w a).durationVal ≤ (w i).durationVal)
    ∨ (∃ k, k < l.length ∧ l.foldl (leaderStep w) a = l.getD k 0
        ∧ (w (l.getD k 0)).durationVal < (w a).durationVal
        ∧ (∀ j, j < k →
            (w (l.getD k 0)).durationVal < (w (l.getD j 0)).durationVal)
        ∧ (∀ i ∈ l, (w (l.getD k 0)).durationVal ≤ (w i).durationVal)) := by
  intro l
  induction l with
  | nil => intro a; exact Or.inl ⟨rfl, by simp⟩
  | cons b rest ih =>
    intro a
    rw [List.foldl_cons]
    by_cases hb : (w b).durationVal < (w a).durationVal
    · have hstep : leaderStep w a b = b := if_pos hb
      rw [hstep]
      rcases ih b with ⟨heq, hall⟩ | ⟨k, hk, heq, hlt, hstrict, hall⟩
      · right
        refine ⟨0, Nat.succ_pos _, by simpa using heq, by simpa using hb, ?_, ?_⟩
        · intro j hj; exact absurd hj (Nat.not_lt_zero j)
        · intro i hi
          simp only [List.getD_cons_zero]
          rcases List.mem_cons.1 hi with rfl | hi2
          · exact le_refl _
          · exact hall i hi2
      · right
        refine ⟨k + 1, Nat.succ_lt_succ hk, by simpa using heq, ?_, ?_, ?_⟩
        · simp only [List.getD_cons_succ]
          exact lt_trans hlt hb
        · intro j hj
          cases j with
          | zero =>
            simp only [List.getD_cons_succ, List.getD_cons_zero]
            exact hlt
          | succ j2 =>
            simp only [List.getD_cons_succ]
            exact hstrict j2 (Nat.lt_of_succ_lt_succ hj)
        · intro i hi
          simp only [List.getD_cons_succ]
          rcases List.mem_cons.1 hi with rfl | hi2
          · exact le_of_lt hlt
          · exact hall i hi2
    · have hstep : leaderStep w a b = a := if_neg hb
      rw [hstep]
      push_neg at hb
      rcases ih a with ⟨heq, hall⟩ | ⟨k, hk, heq, hlt, hstrict, hall⟩
      · left
        refine ⟨heq, ?_⟩
        intro i hi
        rcases List.mem_cons.1 hi with rfl | hi2
        · exact hb
        · exact hall i hi2
      · right
        refine ⟨k + 1, Nat.succ_lt_succ hk, by simpa using heq, ?_, ?_, ?_⟩
        · simp only [List.getD_cons_succ]
          exact hlt
        · intro j hj
          cases j with
          | zero =>
            simp only [List.getD_cons_succ, List.getD_cons_zero]
            exact lt_of_lt_of_le hlt hb
          | succ j2 =>
            simp only [List.getD_cons_succ]
            exact hstrict j2 (Nat.lt_of_succ_lt_succ hj)
        · intro i hi
          simp only [List.getD_cons_succ]
          rcases List.mem_cons.1 hi with rfl | hi2
          · exact le_trans (le_of_lt hlt) hb
          · exact hall i hi2

theorem selectLeader_spec (w : World) (m : Nat) (rest : List Nat) :
    ∃ k, k < (m :: rest).length
      ∧ selectLeader w (m :: rest) = (m :: rest).getD k 0
      ∧ (∀ j, j < (m :: rest).length →
          (w ((m :: rest).getD k 0)).durationVal
            ≤ (w ((m :: rest).getD j 0)).durationVal)
      ∧ (∀ j, j < k →
          (w ((m :: rest).getD k 0)).durationVal
            < (w ((m :: rest).getD j 0)).durationVal) := by
  have hself : leaderStep w m m = m := ite_self m
  have hsel : selectLeader w (m :: rest) = rest.foldl (leaderStep w) m := by
    simp only [selectLeader, List.headD_cons, List.foldl_cons, hself]
  rcases foldl_leaderStep_spec w rest m with ⟨heq, hall⟩ | ⟨k, hk, heq, hlt, hstrict, hall⟩
  · refine ⟨0, Nat.succ_pos _, by simp [hsel, heq], ?_, ?_⟩
    · intro j hj
      simp only [List.getD_cons_zero]
      cases j with
      | zero => simp
      | succ j2 =>
        simp only [List.getD_cons_succ]
        exact hall _ (getD_mem_of_lt rest j2 (by simpa using hj))
    · intro j hj; exact absurd hj (Nat.not_lt_zero j)
  · refine ⟨k + 1, Nat.succ_lt_succ hk, by simp [hsel, heq], ?_, ?_⟩
    · intro j hj
      simp only [List.getD_cons_succ]
      cases j with
      | zero =>
        simp only [List.getD_cons_zero]
        exact le_of_lt hlt
      | succ j2 =>
        simp only [List.getD_cons_succ]
        exact hall _ (getD_mem_of_lt rest j2 (by simpa using hj))
    · intro j hj
      simp only [List.getD_cons_succ]
      cases j with
      | zero =>
        simp only [List.getD_cons_zero]
        exact hlt
      | succ j2 =>
        simp only [List.getD_cons_succ]
        exact hstrict j2 (Nat.lt_of_succ_lt_succ hj)

theorem selectLeader_mem (w : World) (ms : List Nat) (h : ms ≠ []) :
    selectLeader w ms ∈ ms := by
  obtain ⟨m, rest, rfl⟩ := List.exists_cons_of_ne_nil h
  obtain ⟨k, hk, heq, _, _⟩ := selectLeader_spec w m rest
  rw [heq]
  exact getD_mem_of_lt _ k hk

theorem sync_inv (ms : List Nat) (w : World) (c : SyncController)
    (h : sync ms w = some c) :
    ms ≠ [] ∧ c = { members := ms, leader := selectLeader w ms,
                    saved := ms.map (fun i => (i, (w i).run_func)),
                    sync_active := false } := by
  unfold sync at h
  split at h
  · exact Option.noConfusion h
  · rename_i hne
    injection h with h
    refine ⟨?_, h.symm⟩
    intro hnil
    exact hne (by simp [hnil])

theorem enable_of_inactive (c : SyncController) (w : World)
    (h : c.sync_active = false) :
    c.enable w = ({ c with sync_active := true }, enableWorld c w) := by
  unfold SyncController.enable
  rw [h]
  simp

theorem disable_of_active (c : SyncController) (w : World)
    (h : c.sync_active = true) :
    c.disable w = ({ c with sync_active := false }, disableWorld c w) := by
  unfold SyncController.disable
  rw [h]
  simp

theorem disable_of_inactive (c : SyncController) (w : World)
    (h : c.sync_active = false) :
    c.disable w = (c, w) := by
  unfold SyncController.disable
  rw [h]
  simp

theorem replace_foldl_not_mem (c : SyncController) :
    ∀ (l : List Nat) (acc : World) (i : Nat), i ∉ l →
    (l.foldl (replaceStep c) acc) i = acc i := by
  intro l
  induction l with
  | nil => intro acc i _; rfl
  | cons j rest ih =>
    intro acc i hi
    simp only [List.mem_cons, not_or] at hi
    rw [List.foldl_cons, ih _ i hi.2]
    unfold replaceStep
    exact Function.update_noteq hi.1 _ _

theorem replace_foldl_run_func (c : SyncController) :
    ∀ (l : List Nat) (acc : World) (i : Nat), i ∈ l →
    ((l.foldl (replaceStep c) acc) i).run_func
      = (if i = c.leader then RunFunc.broadcast c.leader c.saved
          else RunFunc.noop) := by
  intro l
  induction l with
  | nil => intro acc i hi; simp at hi
  | cons j rest ih =>
    intro acc i hi
    rw [List.foldl_cons]
    by_cases hmem : i ∈ rest
    · exact ih _ i hmem
    · have hij : i = j := by
        rcases List.mem_cons.1 hi with h | h
        · exact h
        · exact absurd h hmem
      subst hij
      rw [replace_foldl_not_mem c rest _ i hmem]
      unfold replaceStep
      rw [Function.update_same]

theorem replace_foldl_shape (c : SyncController) :
    ∀ (l : List Nat) (acc : World) (i : Nat),
    ∃ rf, (l.foldl (replaceStep c) acc) i = { acc i with run_func := rf } := by
  intro l
  induction l with
  | nil => intro acc i; exact ⟨(acc i).run_func, rfl⟩
  | cons j rest ih =>
    intro acc i
    rw [List.foldl_cons]
    obtain ⟨rf, hrf⟩ := ih (replaceStep c acc j) i
    by_cases hij : i = j
    · subst hij
      refine ⟨rf, ?_⟩
      rw [hrf]
      unfold replaceStep
      rw [Function.update_same]
    · refine ⟨rf, ?_⟩
      rw [hrf]
      unfold replaceStep
      rw [Function.update_noteq hij]

theorem restore_foldl_not_mem :
    ∀ (l : List (Nat × RunFunc)) (acc : World) (i : Nat),
    i ∉ l.map Prod.fst → (l.foldl restoreStep acc) i = acc i := by
  intro l
  induction l with
  | nil => intro acc i _; rfl
  | cons p rest ih =>
    intro acc i hi
    simp only [List.map_cons, List.mem_cons, not_or] at hi
    rw [List.foldl_cons, ih _ i hi.2]
    unfold restoreStep
    exact Function.update_noteq hi.1 _ _

theorem restore_foldl_run_func :
    ∀ (l : List (Nat × RunFunc)) (acc : World) (i : Nat) (F : RunFunc),
    (∀ p ∈ l, p.1 = i → p.2 = F) → i ∈ l.map Prod.fst →
    ((l.foldl restoreStep acc) i).run_func = F := by
  intro l
  induction l with
  | nil => intro acc i F _ hi; simp at hi
  | cons p rest ih =>
    intro acc i F hall hi
    rw [List.foldl_cons]
    by_cases hmem : i ∈ rest.map Prod.fst
    · exact ih _ i F (fun q hq hq2 => hall q (List.mem_cons_of_mem p hq) hq2) hmem
    · have hpi : p.1 = i := by
        simp only [List.map_cons, List.mem_cons] at hi
        rcases hi with h | h
        · exact h.symm
        · exact absurd h hmem
      rw [restore_foldl_not_mem rest _ i hmem]
      unfold restoreStep
      rw [hpi, Function.update_same]
      have hp2 := hall p (List.mem_cons_self p rest) hpi
      simp [Interval.forceRestart, hp2]

theorem kickoff_not_computed (s : Interval) (h : s.handle_computed = false) :
    s.kickoff
      = { s with interval_id := s.next_id
                 next_id := s.next_id + 1
                 timer_live := true
                 handle_computed := true
                 handle_version := s.version
                 handle_duration := s.durationVal
                 handle_func := s.run_func } := by
  unfold Interval.kickoff
  rw [h]
  simp

/-! ## Claim theorems: the synchronizer -/

/-- C5: the leader selected by `sync` is the first member attaining the
minimum resolved duration — it has minimal duration among all members and
strictly smaller duration than every earlier-listed member — and the
`leader` read is unchanged by `enable()` and `disable()` for the
controller's lifetime. -/
theorem sync_leader_first_minimum (ms : List Nat) (w : World)
    (c : SyncController) (h : sync ms w = some c) :
    (∃ k, k < ms.length ∧ c.leader = ms.getD k 0
      ∧ (∀ j, j < ms.length →
          (w (ms.getD k 0)).durationVal ≤ (w (ms.getD j 0)).durationVal)
      ∧ (∀ j, j < k →
          (w (ms.getD k 0)).durationVal < (w (ms.getD j 0)).durationVal))
    ∧ (∀ w2 : World, ((c.enable w2).1).leader = c.leader)
    ∧ (∀ w2 : World, ((c.disable w2).1).leader = c.leader) := by
  obtain ⟨hne, rfl⟩ := sync_inv ms w c h
  refine ⟨?_, ?_, ?_⟩
  · obtain ⟨m, rest, rfl⟩ := List.exists_cons_of_ne_nil hne
    simpa using selectLeader_spec w m rest
  · intro w2
    unfold SyncController.enable
    split <;> rfl
  · intro w2
    unfold SyncController.disable
    split <;> rfl

/-- C5 witness: for members `[0, 1, 2]` of durations `300, 100, 200`, the
theorem applies (instance 1 is the leader) and `enable` keeps the leader. -/
theorem sync_leader_first_minimum_witness :
    (∃ k, k < ([0, 1, 2] : List Nat).length ∧ c5c.leader = [0, 1, 2].getD k 0
      ∧ (∀ j, j < ([0, 1, 2] : List Nat).length →
          (c5w ([0, 1, 2].getD k 0)).durationVal
            ≤ (c5w ([0, 1, 2].getD j 0)).durationVal)
      ∧ (∀ j, j < k →
          (c5w ([0, 1, 2].getD k 0)).durationVal
            < (c5w ([0, 1, 2].getD j 0)).durationVal))
    ∧ (∀ w2 : World, ((c5c.enable w2).1).leader = c5c.leader)
    ∧ (∀ w2 : World, ((c5c.disable w2).1).leader = c5c.leader) :=
  sync_leader_first_minimum [0, 1, 2] c5w c5c rfl

/-- C9: `sync` captures every member's current tick-handling function at
construction time, `enable()` immediately followed by `disable()` restores
every member's function to exactly that captured original (whatever world
the pair runs on), and `disable()` on a controller that is not enabled is a
no-op. -/
theorem sync_capture_and_restore (ms : List Nat) (w0 : World)
    (c : SyncController) (h : sync ms w0 = some c) :
    c.saved = ms.map (fun i => (i, (w0 i).run_func))
    ∧ (∀ (w : World) (i : Nat), i ∈ ms →
        ((((c.enable w).1).disable ((c.enable w).2)).2 i).run_func
          = (w0 i).run_func)
    ∧ (∀ (c2 : SyncController) (w : World), c2.sync_active = false →
        c2.disable w = (c2, w)) := by
  obtain ⟨hne, rfl⟩ := sync_inv ms w0 c h
  refine ⟨rfl, ?_, fun c2 w h2 => disable_of_inactive c2 w h2⟩
  intro w i hi
  rw [enable_of_inactive _ w rfl]
  rw [disable_of_active _ _ rfl]
  show ((disableWorld _ _) i).run_func = (w0 i).run_func
  unfold disableWorld
  apply restore_foldl_run_func
  · intro p hp hp1
    simp only [List.mem_map] at hp
    obtain ⟨j, _, rfl⟩ := hp
    simp only at hp1
    rw [hp1]
  · simp only [List.map_map]
    have : (Prod.fst ∘ fun i => (i, (w0 i).run_func)) = fun i : Nat => i := rfl
    rw [this]
    simpa using hi

/-- C9 witness: the capture/restore theorem applied to members `[0, 1]` of
`c4w1`; after `enable(); disable()` member 0's handler is its original. -/
theorem sync_capture_and_restore_witness :
    c4c.saved = [0, 1].map (fun i => (i, (c4w1 i).run_func))
    ∧ ((((c4c.enable c4w1).1).disable ((c4c.enable c4w1).2)).2 0).run_func
        = (c4w1 0).run_func :=
  ⟨(sync_capture_and_restore [0, 1] c4w1 c4c rfl).1,
   (sync_capture_and_restore [0, 1] c4w1 c4c rfl).2.1 c4w1 0 (by simp)⟩

/-- C4, counterexample: with `A = Interval(300)` already started (live
timer) and `B = Interval(100)`, `sync(A, B)` selects `B` as leader; after
`enable()`, a firing of `A`'s still-live underlying timer counts a tick on
`A` (its handle captured the original handler at creation, before the no-op
replacement), contradicting "non-leader members' independently live timers
produce zero counted ticks". -/
theorem sync_enabled_follower_still_ticks :
    sync [0, 1] c4w1 = some c4c
    ∧ ((fireAt 0 ((c4c.enable c4w1).2)) 0).tick_count = 1
    ∧ ((fireAt 0 ((c4c.enable c4w1).2)) 1).tick_count = 0 :=
  ⟨rfl, by decide, by decide⟩

/-- C4 (amended): `enable()` replaces the leader's run function with the
broadcast closure and every follower's with a no-op, and when the leader
had no handle yet the handle it creates is bound to the broadcast; a
broadcast invocation does nothing when the leader's own active flag is
false and otherwise runs every member's saved original handler exactly once
in member order; firing a timer whose handle is bound to the no-op changes
nothing.  But a handle bound *before* `enable()` (a follower's already-live
timer, or a previously started leader until its next read) keeps invoking
the function captured at its creation. -/
theorem sync_enable_broadcast_semantics (ms : List Nat) (w0 : World)
    (c : SyncController) (h : sync ms w0 = some c) (w : World) :
    c.saved = ms.map (fun i => (i, (w0 i).run_func))
    ∧ (∀ i, i ∈ ms → i ≠ c.leader →
        (((c.enable w).2) i).run_func = RunFunc.noop)
    ∧ (((c.enable w).2) c.leader).run_func = RunFunc.broadcast c.leader c.saved
    ∧ ((w c.leader).handle_computed = false →
        (((c.enable w).2) c.leader).handle_func
            = RunFunc.broadcast c.leader c.saved
        ∧ (((c.enable w).2) c.leader).timer_live = true)
    ∧ (∀ (w2 : World) (x : Nat), (w2 c.leader).is_active = false →
        applyRunFunc (RunFunc.broadcast c.leader c.saved) x w2 = w2)
    ∧ (∀ (w2 : World) (x : Nat), (w2 c.leader).is_active = true →
        applyRunFunc (RunFunc.broadcast c.leader c.saved) x w2
          = applyRunFuncs c.saved w2)
    ∧ (∀ (x : Nat) (w2 : World), (w2 x).handle_func = RunFunc.noop →
        fireAt x w2 = w2) := by
  obtain ⟨hne, hceq⟩ := sync_inv ms w0 c h
  have hm : c.members = ms := by rw [hceq]
  have hs : c.saved = ms.map (fun i => (i, (w0 i).run_func)) := by rw [hceq]
  have ha : c.sync_active = false := by rw [hceq]
  have hmem : c.leader ∈ ms := by
    rw [hceq]
    exact selectLeader_mem w0 ms hne
  rw [enable_of_inactive _ w ha]
  refine ⟨hs, ?_, ?_, ?_, ?_, ?_, ?_⟩
  · intro i hi hneq
    show ((enableWorld c w) i).run_func = RunFunc.noop
    unfold enableWorld
    rw [Function.update_noteq hneq, Function.update_noteq hneq, hm]
    rw [replace_foldl_run_func c ms w i hi]
    simp [hneq]
  · show ((enableWorld c w) c.leader).run_func = _
    unfold enableWorld
    rw [Function.update_same]
    simp only [Interval.forceRestart]
    rw [Function.update_same]
    rw [kickoff_run_func, hm]
    rw [replace_foldl_run_func c ms w c.leader hmem]
    simp
  · intro hcomp
    show ((enableWorld c w) c.leader).handle_func = _
      ∧ ((enableWorld c w) c.leader).timer_live = true
    unfold enableWorld
    rw [Function.update_same]
    simp only [Interval.forceRestart]
    rw [Function.update_same]
    obtain ⟨rf, hshape⟩ := replace_foldl_shape c ms w c.leader
    have hrf : rf = RunFunc.broadcast c.leader c.saved := by
      have h2 := replace_foldl_run_func c ms w c.leader hmem
      rw [hshape] at h2
      simpa using h2
    subst hrf
    rw [hm, hshape]
    rw [kickoff_not_computed _ (by simpa using hcomp)]
    exact ⟨rfl, rfl⟩
  · intro w2 x hact
    rw [applyRunFunc_broadcast_eq]
    simp [hact]
  · intro w2 x hact
    rw [applyRunFunc_broadcast_eq]
    simp [hact]
  · intro x w2 hh
    unfold fireAt
    rw [hh]
    split
    · exact applyRunFunc_noop_eq x w2
    · rfl

/-- C4 witness: the amended theorem applied to `sync([0, 1])` over `c4w1`:
after `enable()` member 0's run function is the no-op and the leader's (1)
is the broadcast closure. -/
theorem sync_enable_broadcast_semantics_witness :
    (((c4c.enable c4w1).2) 0).run_func = RunFunc.noop
    ∧ (((c4c.enable c4w1).2) c4c.leader).run_func
        = RunFunc.broadcast c4c.leader c4c.saved :=
  ⟨(sync_enable_broadcast_semantics [0, 1] c4w1 c4c rfl c4w1).2.1 0
      (by simp) (by decide),
   (sync_enable_broadcast_semantics [0, 1] c4w1 c4c rfl c4w1).2.2.1⟩

end SvelteInterval
